import Mathlib

/- Formal model of the likelihood and posterior-summarization core of the
   dose-invariant susceptibility estimator (src/lib/timeEst.py and
   src/lib/timeTestHom.py).  Floating-point values are modelled as real
   numbers.  The numpy special values are modelled explicitly: minus
   infinity by the bottom element of EReal, and NaN (as well as a raised
   Python exception) by the none case of Option. -/

/-- Mixture probability used by likelihood_deaths and likelihood_survivors
(timeEst.py lines 184 and 191, timeTestHom.py lines 130 and 137): a fraction
I/nf of the hosts at risk uses the infected probability, the remainder the
uninfected one. -/
noncomputable def mixP (nf I pI pU : ℝ) : ℝ := (I / nf) * pI + (1 - I / nf) * pU

/-- Model of numpy log applied to one scalar: NaN (none) on negative input,
minus infinity at zero, the real logarithm on positive input. -/
noncomputable def nplog (x : ℝ) : Option EReal :=
  if x < 0 then none else if x = 0 then some ⊥ else some ((Real.log x : ℝ) : EReal)

/-- Flooring step of likelihood_deaths (timeEst.py lines 185-187): when any
entry of the probability array is negative, every negative entry is set
to 0; otherwise the array is left untouched. -/
noncomputable def floorNeg (res : List ℝ) : List ℝ :=
  if res.any (fun x => decide (x < 0)) then
    res.map (fun x => if x < 0 then 0 else x)
  else res

/-- Addition of two possibly-NaN extended reals: NaN propagates. -/
noncomputable def osum2 (a b : Option EReal) : Option EReal :=
  match a, b with
  | some x, some y => some (x + y)
  | _, _ => none

/-- Model of numpy sum over an array of extended-real log values: NaN
propagates, otherwise the extended-real sum (minus infinity absorbs). -/
noncomputable def osum : List (Option EReal) → Option EReal
  | [] => some 0
  | a :: l => osum2 a (osum l)

/-- Floored logarithm in the words of the spec: a value at or below zero is
floored to zero before the logarithm, giving minus infinity. -/
noncomputable def logFloor (x : ℝ) : EReal :=
  if x ≤ 0 then ⊥ else ((Real.log x : ℝ) : EReal)

/-- likelihood_deaths (timeEst.py lines 183-188, timeTestHom.py lines
129-134).  The per-interval probability arrays probdI and probdU are
modelled as functions from an interval index, and value as the list of the
per-death interval indices used to index into them. -/
noncomputable def likelihood_deaths (nf I : ℝ) (probdI probdU : ℕ → ℝ)
    (value : List ℕ) : Option EReal :=
  osum ((floorNeg (value.map (fun v => mixP nf I (probdI v) (probdU v)))).map nplog)

/-- likelihood_survivors (timeEst.py lines 190-195, timeTestHom.py lines
136-141): the mixture raised to the survivor count, a negative result set
to 0, then the logarithm. -/
noncomputable def likelihood_survivors (nf I pI pU : ℝ) (value : ℕ) : Option EReal :=
  nplog (if mixP nf I pI pU ^ value < 0 then 0 else mixP nf I pI pU ^ value)

/-- potIdeaths1 and potIdeaths2 (timeEst.py lines 215-221, timeTestHom.py
lines 175-181): the monotonicity potential is 0.0 when the gamma cumulative
distribution of the infected group at the last observed time is at least
the uninfected one, and minus infinity otherwise.  The scipy gamma
cumulative distribution (loc fixed to 0) is kept abstract as a function of
time, shape and scale. -/
noncomputable def potIdeaths (gammaCdf : ℝ → ℝ → ℝ → ℝ) (tEnd sI tauI sU tauU : ℝ) :
    EReal :=
  if gammaCdf tEnd sU tauU ≤ gammaCdf tEnd sI tauI then 0 else ⊥

/-- Joint log-probability of one parameter draw as the sampler sees it: the
sum of the remaining log-likelihood terms, given here as one extended real,
plus the two monotonicity potentials (pymc adds the logp of every term of
the model). -/
noncomputable def targetLogp (gammaCdf : ℝ → ℝ → ℝ → ℝ) (tEnd : ℝ) (lik : EReal)
    (sI1 tauI1 sI2 tauI2 sU tauU : ℝ) : EReal :=
  lik + potIdeaths gammaCdf tEnd sI1 tauI1 sU tauU
    + potIdeaths gammaCdf tEnd sI2 tauI2 sU tauU

/-- Outcome of Model.calcPosterior (timeEst.py lines 240-266). -/
inductive PostAction where
  | recomputed
  | importedCache
  | leftUnsummarized
deriving DecidableEq

/-- Cache decision of Model.calcPosterior (timeEst.py lines 250-266):
bOverWrite forces recomputation from the trace; otherwise the persisted
summary is looked up (none models the IOError path taken when the summary
file is absent, which recomputes) and it is imported exactly when its
stored burn-in and thinning factor equal the requested ones.  When a
summary exists but does not match, the method returns without doing
anything: no recomputation is triggered. -/
def calcPosterior (bOverWrite : Bool) (saved : Option (Nat × Nat))
    (burnin thinF : Nat) : PostAction :=
  if bOverWrite then PostAction.recomputed
  else
    match saved with
    | none => PostAction.recomputed
    | some (b, t) =>
        if b = burnin ∧ t = thinF then PostAction.importedCache
        else PostAction.leftUnsummarized

/-- Python extended slice l[burnin:None:thinF], second half: keep the
elements whose index is a multiple of thinF. -/
def everyNth (l : List ℝ) (k : ℕ) : List ℝ :=
  (l.enum.filter (fun q => q.1 % k == 0)).map Prod.snd

/-- Python extended slice l[burnin:None:thinF] (timeEst.py line 273): drop
the first burnin elements, then keep every thinF-th remaining one. -/
def sliceStep (l : List ℝ) (burnin thinF : ℕ) : List ℝ :=
  everyNth (l.drop burnin) thinF

/-- Per-parameter trace loading of Model.__calc__ (timeEst.py lines
272-281).  The first chain is sliced; when more than one chain is present
the code runs for c in nchains[1:] where nchains is an int, so it raises
TypeError before extending anything, modelled by none (as is the KeyError
raised on an empty chain dictionary). -/
def loadParamVals (chains : List (List ℝ)) (burnin thinF : ℕ) : Option (List ℝ) :=
  match chains with
  | [] => none
  | [c0] => some (sliceStep c0 burnin thinF)
  | _ => none

/-- Intended multi-chain behaviour, for comparison.  Follows the words of
the spec: read the per-parameter sample sequences of all chains and
concatenate the chains after independently discarding the first burnIn
samples and keeping every thinningFactor-th remaining sample from each. -/
def loadParamValsSpec (chains : List (List ℝ)) (burnin thinF : ℕ) : List ℝ :=
  (chains.map (fun c => sliceStep c burnin thinF)).flatten

/-- Time grid of Model.__calc__ (timeEst.py line 289, timeTestHom.py line
210): np.arange(0, times[-1] + 1, 0.2), modelled exactly over the
rationals.  An arange from 0 with positive step holds the multiples of the
step that are strictly below the stop value, so it has
ceil(stop / step) entries. -/
def tsGrid (tmaxObs : ℚ) : List ℚ :=
  (List.range (Nat.ceil ((tmaxObs + 1) / (1 / 5)))).map (fun (i : ℕ) => (i : ℚ) * (1 / 5))

/-- Survival-curve value of one posterior sample for group 1 before the
credible-interval reduction (timeEst.py lines 313 and 318-321): dose row 0
is one minus the uninfected cumulative curve, and a positive dose row mixes
the infected and uninfected cumulative curves through the homogeneous
infection probability at that dose.  The dose-response function pi_hom of
utils is kept abstract. -/
def survivalEntry1 (piHom : ℝ → ℝ → ℝ → ℝ) (doses : ℕ → ℝ)
    (p eps cdfI1 cdfU : ℝ) (di : ℕ) : ℝ :=
  if di = 0 then 1 - cdfU
  else 1 - piHom (doses di) p eps * cdfI1 - (1 - piHom (doses di) p eps) * cdfU

/-- Survival-curve value of one posterior sample for group 2 (timeEst.py
lines 314 and 319-322), which uses the heterogeneous dose-response
function pi_het of utils, kept abstract. -/
def survivalEntry2 (piHet : ℝ → ℝ → ℝ → ℝ → ℝ → ℝ) (doses : ℕ → ℝ)
    (p a2 b2 eps cdfI2 cdfU : ℝ) (di : ℕ) : ℝ :=
  if di = 0 then 1 - cdfU
  else 1 - piHet (doses di) p a2 b2 eps * cdfI2
    - (1 - piHet (doses di) p a2 b2 eps) * cdfU

/-- Cumulative curve of one posterior sample over the time grid (timeEst.py
lines 301-306): the kernel integral from 0 to each grid time, with the
kernel ut.kpdfInt of utils kept abstract as a function of the upper limit,
shape, scale and background hazard. -/
def cdfRow (kcdf : ℝ → ℝ → ℝ → ℝ → ℝ) (ts : List ℝ) (s tau k : ℝ) : List ℝ :=
  ts.map (fun t => kcdf t s tau k)

/-- Density curve of one posterior sample computed by direct evaluation of
the hazard-kernel density ut.kpdf at each grid time (timeEst.py lines
294-297, the rows behind pdfI1 and pdfI2). -/
def pdfDirectRow (kpdf : ℝ → ℝ → ℝ → ℝ → ℝ) (ts : List ℝ) (s tau k : ℝ) : List ℝ :=
  ts.map (fun t => kpdf t s tau k)

/-- Consecutive differences, the row-wise content of
cdfU[:, 1:] - cdfU[:, :-1] (timeEst.py line 341). -/
def diffConsec (l : List ℝ) : List ℝ :=
  List.zipWith (fun a b => a - b) l.tail l

/-- Row of pdfU before the credible-interval reduction (timeEst.py line
341): finite differencing of the cumulative curve. -/
def pdfUrow (kcdf : ℝ → ℝ → ℝ → ℝ → ℝ) (ts : List ℝ) (s tau k : ℝ) : List ℝ :=
  diffConsec (cdfRow kcdf ts s tau k)

/-- Observed data of one group at one positive dose (timeEst.py lines
199-212): hosts at risk, current latent infected count, the per-death
interval indices and the survivor count. -/
structure DoseGroupObs where
  nf : ℝ
  Iv : ℝ
  iTd : List ℕ
  surv : ℕ

/-- Likelihood terms contributed by one group at one positive dose
(timeEst.py lines 199-212): the death term always, the survivor term only
when the group has a strictly positive survivor count at that dose. -/
noncomputable def groupTerms (probdI probdU : ℕ → ℝ) (psI psU : ℝ)
    (o : DoseGroupObs) : List (Option EReal) :=
  likelihood_deaths o.nf o.Iv probdI probdU o.iTd ::
    (if 0 < o.surv then [likelihood_survivors o.nf o.Iv psI psU o.surv] else [])

/-- The same terms with the survivor factor always present, the way the
spec words the total likelihood. -/
noncomputable def groupTermsAll (probdI probdU : ℕ → ℝ) (psI psU : ℝ)
    (o : DoseGroupObs) : List (Option EReal) :=
  [likelihood_deaths o.nf o.Iv probdI probdU o.iTd,
    likelihood_survivors o.nf o.Iv psI psU o.surv]

/-- Total death-and-survivor log-likelihood over the positive doses, the
two groups interleaved per dose as in timeEst.py lines 198-212. -/
noncomputable def totalLik (pd1 pd2 pdU : ℕ → ℝ) (ps1 ps2 psU : ℝ)
    (obs : List (DoseGroupObs × DoseGroupObs)) : Option EReal :=
  osum ((obs.map (fun o =>
    groupTerms pd1 pdU ps1 psU o.1 ++ groupTerms pd2 pdU ps2 psU o.2)).flatten)

/-- Total log-likelihood with every survivor term included, even at a zero
survivor count. -/
noncomputable def totalLikAll (pd1 pd2 pdU : ℕ → ℝ) (ps1 ps2 psU : ℝ)
    (obs : List (DoseGroupObs × DoseGroupObs)) : Option EReal :=
  osum ((obs.map (fun o =>
    groupTermsAll pd1 pdU ps1 psU o.1 ++ groupTermsAll pd2 pdU ps2 psU o.2)).flatten)

/- Helper lemmas. -/

/-- The clamp-then-log step of the code agrees pointwise with the floored
logarithm of the spec. -/
theorem nplog_clamp (x : ℝ) : nplog (if x < 0 then 0 else x) = some (logFloor x) := by
  unfold nplog logFloor
  rcases lt_trichotomy x 0 with h | h | h
  · rw [if_pos h, if_neg (lt_irrefl (0 : ℝ)), if_pos rfl, if_pos h.le]
  · subst h
    rw [if_neg (lt_irrefl (0 : ℝ)), if_neg (lt_irrefl (0 : ℝ)), if_pos rfl,
      if_pos le_rfl]
  · rw [if_neg (not_lt.mpr h.le), if_neg (not_lt.mpr h.le), if_neg h.ne',
      if_neg (not_le.mpr h)]

/-- Applying numpy log after the conditional flooring of likelihood_deaths
is the same as mapping the floored logarithm, with no NaN left. -/
theorem floorNeg_map_nplog (l : List ℝ) :
    (floorNeg l).map nplog = l.map (fun x => some (logFloor x)) := by
  unfold floorNeg
  by_cases h : l.any (fun x => decide (x < 0)) = true
  · rw [if_pos h, List.map_map]
    apply List.map_congr_left
    exact fun a _ => nplog_clamp a
  · rw [if_neg h]
    have hall : ∀ a ∈ l, ¬ a < 0 := by simpa using h
    apply List.map_congr_left
    intro a ha
    have hc := nplog_clamp a
    rwa [if_neg (hall a ha)] at hc

/-- Summing a list of defined extended reals gives the defined sum. -/
theorem osum_map_some (l : List ℝ) (f : ℝ → EReal) :
    osum (l.map (fun x => some (f x))) = some ((l.map f).sum) := by
  induction l with
  | nil => rfl
  | cons a t ih => simp [osum, osum2, ih, List.sum_cons]

/-- An extended-real sum with a minus-infinity term is minus infinity. -/
theorem ereal_sum_bot (l : List EReal) (h : ⊥ ∈ l) : l.sum = ⊥ := by
  induction l with
  | nil => simp at h
  | cons a t ih =>
      rcases List.mem_cons.mp h with h1 | h2
      · rw [List.sum_cons, ← h1, EReal.bot_add]
      · rw [List.sum_cons, ih h2, EReal.add_bot]

/-- Closed form of likelihood_deaths: the sum of the floored logarithms of
the per-interval mixture probabilities, always defined. -/
theorem likelihood_deaths_eq (nf I : ℝ) (probdI probdU : ℕ → ℝ) (value : List ℕ) :
    likelihood_deaths nf I probdI probdU value =
      some ((value.map (fun v => logFloor (mixP nf I (probdI v) (probdU v)))).sum) := by
  unfold likelihood_deaths
  rw [floorNeg_map_nplog, osum_map_some, List.map_map]
  rfl

/- Claim theorems. -/

/-- C3: the death log-likelihood equals the sum, over the observed
per-death interval indices, of the logarithm of the mixture
(I/n) probDeathInfected + (1 - I/n) probDeathUninfected, a mixture value at
or below 0 being floored to 0 before the logarithm; the contribution is
then minus infinity and the result is always a defined extended real,
never NaN. -/
theorem likelihood_deaths_spec (nf I : ℝ) (probdI probdU : ℕ → ℝ) (value : List ℕ) :
    likelihood_deaths nf I probdI probdU value =
      some ((value.map (fun v => logFloor (mixP nf I (probdI v) (probdU v)))).sum) ∧
    ((∃ v ∈ value, mixP nf I (probdI v) (probdU v) ≤ 0) →
      likelihood_deaths nf I probdI probdU value = some ⊥) := by
  refine ⟨likelihood_deaths_eq nf I probdI probdU value, ?_⟩
  rintro ⟨v, hv, hle⟩
  rw [likelihood_deaths_eq]
  congr 1
  apply ereal_sum_bot
  refine List.mem_map.mpr ⟨v, hv, ?_⟩
  simp [logFloor, hle]

/-- Witness for C3 at a concrete input with a zero mixture probability. -/
theorem likelihood_deaths_spec_witness :
    likelihood_deaths 1 0 (fun _ => 0) (fun _ => 0) [0] = some ⊥ :=
  (likelihood_deaths_spec 1 0 (fun _ => 0) (fun _ => 0) [0]).2
    ⟨0, by simp, by norm_num [mixP]⟩

/-- C4: the survivor log-likelihood is the logarithm of the mixture
survival probability raised to the survivor count, a negative value being
floored to 0 before the logarithm; for a positive mixture it equals
value * log mixture, the independence across survivors. -/
theorem likelihood_survivors_spec (nf I pI pU : ℝ) (v : ℕ) :
    likelihood_survivors nf I pI pU v = some (logFloor (mixP nf I pI pU ^ v)) ∧
    (0 < mixP nf I pI pU →
      likelihood_survivors nf I pI pU v =
        some (((v : ℝ) * Real.log (mixP nf I pI pU) : ℝ) : EReal)) := by
  have h1 : likelihood_survivors nf I pI pU v = some (logFloor (mixP nf I pI pU ^ v)) := by
    unfold likelihood_survivors
    exact nplog_clamp _
  refine ⟨h1, fun hpos => ?_⟩
  rw [h1]
  have hp : 0 < mixP nf I pI pU ^ v := pow_pos hpos v
  unfold logFloor
  rw [if_neg (not_le.mpr hp), Real.log_pow]

/-- Witness for C4 at a concrete input with a positive mixture. -/
theorem likelihood_survivors_spec_witness :
    0 < mixP 1 0 0 1 ∧
    likelihood_survivors 1 0 0 1 2 =
      some ((((2 : ℕ) : ℝ) * Real.log (mixP 1 0 0 1) : ℝ) : EReal) :=
  ⟨by norm_num [mixP], (likelihood_survivors_spec 1 0 0 1 2).2 (by norm_num [mixP])⟩

/-- C1: the joint log-probability of a draw is minus infinity whenever, for
either group, the gamma cumulative death probability of the infected
population at the last observed time is below the uninfected one; otherwise
each monotonicity potential is exactly 0 and the draw keeps its
likelihood. -/
theorem targetLogp_gate (gammaCdf : ℝ → ℝ → ℝ → ℝ) (tEnd : ℝ) (lik : EReal)
    (sI1 tauI1 sI2 tauI2 sU tauU : ℝ) :
    ((gammaCdf tEnd sI1 tauI1 < gammaCdf tEnd sU tauU ∨
        gammaCdf tEnd sI2 tauI2 < gammaCdf tEnd sU tauU) →
      targetLogp gammaCdf tEnd lik sI1 tauI1 sI2 tauI2 sU tauU = ⊥) ∧
    (gammaCdf tEnd sU tauU ≤ gammaCdf tEnd sI1 tauI1 →
      gammaCdf tEnd sU tauU ≤ gammaCdf tEnd sI2 tauI2 →
      potIdeaths gammaCdf tEnd sI1 tauI1 sU tauU = 0 ∧
      potIdeaths gammaCdf tEnd sI2 tauI2 sU tauU = 0 ∧
      targetLogp gammaCdf tEnd lik sI1 tauI1 sI2 tauI2 sU tauU = lik) := by
  unfold targetLogp potIdeaths
  constructor
  · rintro (h | h)
    · rw [if_neg (not_le.mpr h), EReal.add_bot, EReal.bot_add]
    · rw [if_neg (not_le.mpr h), EReal.add_bot]
  · intro h1 h2
    rw [if_pos h1, if_pos h2, add_zero, add_zero]
    exact ⟨rfl, rfl, rfl⟩

/-- Witness for C1: a violating draw is rejected, a conforming one keeps
its likelihood. -/
theorem targetLogp_gate_witness :
    targetLogp (fun _ s _ => s) 5 7 1 1 1 1 2 2 = ⊥ ∧
    targetLogp (fun _ s _ => s) 5 7 3 1 3 1 2 2 = 7 :=
  ⟨(targetLogp_gate (fun _ s _ => s) 5 7 1 1 1 1 2 2).1 (Or.inl (by norm_num)),
    ((targetLogp_gate (fun _ s _ => s) 5 7 3 1 3 1 2 2).2 (by norm_num)
      (by norm_num)).2.2⟩

/-- C5: before the credible-interval reduction, the per-sample survival
value at a positive dose index is the convex combination of the infected
and uninfected survival curves weighted by the infection probability at
that dose (homogeneous for group 1, heterogeneous for group 2), and at the
control dose index 0 it is the uninfected survival curve alone. -/
theorem survival_convex_combination (piHom : ℝ → ℝ → ℝ → ℝ)
    (piHet : ℝ → ℝ → ℝ → ℝ → ℝ → ℝ) (doses : ℕ → ℝ)
    (p a2 b2 eps cdfI1 cdfI2 cdfU : ℝ) (di : ℕ) :
    (di ≠ 0 →
      survivalEntry1 piHom doses p eps cdfI1 cdfU di =
        piHom (doses di) p eps * (1 - cdfI1) +
          (1 - piHom (doses di) p eps) * (1 - cdfU) ∧
      survivalEntry2 piHet doses p a2 b2 eps cdfI2 cdfU di =
        piHet (doses di) p a2 b2 eps * (1 - cdfI2) +
          (1 - piHet (doses di) p a2 b2 eps) * (1 - cdfU)) ∧
    survivalEntry1 piHom doses p eps cdfI1 cdfU 0 = 1 - cdfU ∧
    survivalEntry2 piHet doses p a2 b2 eps cdfI2 cdfU 0 = 1 - cdfU := by
  refine ⟨fun h => ?_, rfl, rfl⟩
  unfold survivalEntry1 survivalEntry2
  rw [if_neg h, if_neg h]
  constructor <;> ring

/-- Witness for C5 at dose index 1 with concrete values. -/
theorem survival_convex_combination_witness :
    survivalEntry1 (fun d _ _ => d) (fun _ => (2 : ℝ)) 0 0 (1 / 2) (1 / 4) 1 =
      2 * (1 - 1 / 2) + (1 - 2) * (1 - 1 / 4) :=
  ((survival_convex_combination (fun d _ _ => d) (fun d _ _ _ _ => d)
      (fun _ => (2 : ℝ)) 0 0 0 0 (1 / 2) (1 / 3) (1 / 4) 1).1 (by norm_num)).1

/-- C2: evaluation of the cache decision of calcPosterior without
overwrite.  A stored summary is imported exactly on an exact match of
burn-in and thinning factor, and a missing summary triggers
recomputation; but a stored summary whose parameters differ from the
requested ones leaves the model un-summarized instead of triggering the
recomputation the claim requires. -/
theorem calcPosterior_eval :
    calcPosterior false (some (0, 1)) 10 1 = PostAction.leftUnsummarized ∧
    calcPosterior false (some (10, 1)) 10 1 = PostAction.importedCache ∧
    calcPosterior false none 10 1 = PostAction.recomputed ∧
    calcPosterior true (some (0, 1)) 10 1 = PostAction.recomputed := by
  refine ⟨?_, ?_, rfl, rfl⟩ <;> decide

/-- C6: evaluation of the per-parameter trace loading.  A single chain is
sliced correctly, but with two chains the code raises TypeError (none)
instead of returning the concatenation of the two thinned chains that the
claim describes (computed by loadParamValsSpec). -/
theorem loadTrace_multichain_eval :
    loadParamVals [[(1 : ℝ)], [2]] 0 1 = none ∧
    loadParamVals [[(1 : ℝ)]] 0 1 = some [1] ∧
    loadParamValsSpec [[(1 : ℝ)], [2]] 0 1 = [1, 2] ∧
    loadParamVals [[(1 : ℝ)], [2]] 0 1 ≠
      some (loadParamValsSpec [[(1 : ℝ)], [2]] 0 1) := by
  refine ⟨rfl, rfl, rfl, fun hc => ?_⟩
  exact Option.noConfusion
    (show (none : Option (List ℝ)) =
        some (loadParamValsSpec [[(1 : ℝ)], [2]] 0 1) from hc)

/-- Counterexample to C7: with a one-sample chain and burn-in 5 the loading
succeeds and silently returns the empty sample list; it does not fail. -/
theorem loadParamVals_no_chainMismatch :
    loadParamVals [[(1 : ℝ)]] 5 1 = some [] ∧
    loadParamVals [[(1 : ℝ)]] 5 1 ≠ none := by
  refine ⟨rfl, ?_⟩
  simp [loadParamVals]

/-- C7 (amended): whenever the requested burn-in is at least the chain
length, the loaded per-parameter sample list is empty and no failure is
signalled. -/
theorem loadParamVals_burnin_empty (c : List ℝ) (burnin thinF : ℕ)
    (h : c.length ≤ burnin) :
    loadParamVals [c] burnin thinF = some [] := by
  show some (sliceStep c burnin thinF) = some []
  rw [sliceStep, List.drop_eq_nil_of_le h]
  rfl

/-- Witness for the amended C7 at a concrete chain. -/
theorem loadParamVals_burnin_empty_witness :
    loadParamVals [[(1 : ℝ)]] 5 1 = some [] :=
  loadParamVals_burnin_empty [1] 5 1 (by simp)

/-- Counterexample to C9: for a last observation time of 10, the grid
contains the point 10.8, which exceeds the maximum observed death time. -/
theorem tsGrid_exceeds_max :
    ((54 : ℚ) / 5) ∈ tsGrid 10 ∧ ¬ ((54 : ℚ) / 5 ≤ 10) := by
  constructor
  · simp only [tsGrid, List.mem_map, List.mem_range]
    exact ⟨54, Nat.lt_ceil.mpr (by norm_num), by norm_num⟩
  · norm_num

/-- C9 (amended): the grid holds exactly the multiples of 0.2 that are
strictly below the last observation time plus one, so its points can
exceed the maximum observed death time by up to 0.8. -/
theorem tsGrid_member_iff (T x : ℚ) :
    x ∈ tsGrid T ↔ ∃ i : ℕ, x = (i : ℚ) * (1 / 5) ∧ x < T + 1 := by
  simp only [tsGrid, List.mem_map, List.mem_range]
  constructor
  · rintro ⟨i, hiN, rfl⟩
    have hiQ := Nat.lt_ceil.mp hiN
    have h5 : (0 : ℚ) < 1 / 5 := by norm_num
    refine ⟨i, rfl, ?_⟩
    calc (i : ℚ) * (1 / 5) < ((T + 1) / (1 / 5)) * (1 / 5) :=
          mul_lt_mul_of_pos_right hiQ h5
      _ = T + 1 := div_mul_cancel₀ _ (by norm_num)
  · rintro ⟨i, rfl, hlt⟩
    refine ⟨i, Nat.lt_ceil.mpr ?_, rfl⟩
    rw [lt_div_iff₀ (by norm_num : (0 : ℚ) < 1 / 5)]
    exact hlt

/-- Witness for the amended C9: 10.8 is a grid point below 10 + 1. -/
theorem tsGrid_member_iff_witness : ((54 : ℚ) / 5) ∈ tsGrid 10 :=
  (tsGrid_member_iff 10 (54 / 5)).mpr ⟨54, by norm_num, by norm_num⟩

/-- Index lemma for a mapped list with default value 0. -/
theorem getD_map_zero (f : ℝ → ℝ) :
    ∀ (l : List ℝ) (j : ℕ), j < l.length → (l.map f).getD j 0 = f (l.getD j 0)
  | [], j, h => absurd h (by simp)
  | a :: t, 0, _ => rfl
  | a :: t, j + 1, h => by
      have ih := getD_map_zero f t j (by simpa using h)
      simpa using ih

/-- Index lemma for consecutive differences: entry j is the difference of
entries j + 1 and j of the original list. -/
theorem diffConsec_getD :
    ∀ (l : List ℝ) (j : ℕ), j + 1 < l.length →
      (diffConsec l).getD j 0 = l.getD (j + 1) 0 - l.getD j 0
  | [], j, h => absurd h (by simp)
  | [a], j, h => absurd h (by simp)
  | a :: b :: t, 0, _ => rfl
  | a :: b :: t, j + 1, h => by
      have ih := diffConsec_getD (b :: t) j (by simpa using h)
      simpa [diffConsec] using ih

/-- Counterexample to C8: with the consistent constant kernel (density 1,
cumulative t) the row behind pdfI1 is a direct density evaluation and is
not the finite difference of the corresponding cumulative row. -/
theorem pdfI_not_finite_difference :
    pdfDirectRow (fun _ _ _ _ => (1 : ℝ)) [0, 1 / 5] 1 1 1 ≠
      diffConsec (cdfRow (fun t _ _ _ => t) [0, 1 / 5] 1 1 1) := by
  intro h
  have hl := congrArg List.length h
  simp [pdfDirectRow, cdfRow, diffConsec] at hl

/-- C8 (amended): pdfU is obtained by finite differencing of consecutive
cumulative values on the time grid, while pdfI1 and pdfI2 are obtained by
direct evaluation of the hazard-kernel density at the grid times. -/
theorem pdf_curves_derivation (kpdf kcdf : ℝ → ℝ → ℝ → ℝ → ℝ) (ts : List ℝ)
    (s tau k : ℝ) (j : ℕ) :
    (j + 1 < ts.length →
      (pdfUrow kcdf ts s tau k).getD j 0 =
        kcdf (ts.getD (j + 1) 0) s tau k - kcdf (ts.getD j 0) s tau k) ∧
    (j < ts.length →
      (pdfDirectRow kpdf ts s tau k).getD j 0 = kpdf (ts.getD j 0) s tau k) := by
  constructor
  · intro h
    unfold pdfUrow
    rw [diffConsec_getD (cdfRow kcdf ts s tau k) j (by simpa [cdfRow] using h)]
    unfold cdfRow
    rw [getD_map_zero (fun t => kcdf t s tau k) ts (j + 1) h,
      getD_map_zero (fun t => kcdf t s tau k) ts j (Nat.lt_of_succ_lt h)]
  · intro h
    unfold pdfDirectRow
    rw [getD_map_zero (fun t => kpdf t s tau k) ts j h]

/-- Witness for the amended C8 on a two-point grid. -/
theorem pdf_curves_derivation_witness :
    (pdfUrow (fun t _ _ _ => t) [0, 1 / 5] 1 1 1).getD 0 0 = 1 / 5 - 0 ∧
    (pdfDirectRow (fun _ _ _ _ => (1 : ℝ)) [0, 1 / 5] 1 1 1).getD 0 0 = 1 :=
  ⟨(pdf_curves_derivation (fun _ _ _ _ => (1 : ℝ)) (fun t _ _ _ => t)
      [0, 1 / 5] 1 1 1 0).1 (by simp),
    (pdf_curves_derivation (fun _ _ _ _ => (1 : ℝ)) (fun t _ _ _ => t)
      [0, 1 / 5] 1 1 1 0).2 (by simp)⟩

/-- Possibly-NaN addition is associative. -/
theorem osum2_assoc (a b c : Option EReal) :
    osum2 (osum2 a b) c = osum2 a (osum2 b c) := by
  rcases a with _ | x <;> rcases b with _ | y <;> rcases c with _ | z <;>
    simp [osum2, add_assoc]

/-- Splitting a possibly-NaN sum over an append. -/
theorem osum_append (l1 l2 : List (Option EReal)) :
    osum (l1 ++ l2) = osum2 (osum l1) (osum l2) := by
  induction l1 with
  | nil => rcases h : osum l2 with _ | s <;> simp [osum, osum2, h]
  | cons a t ih =>
      simp only [List.cons_append, osum, List.append_eq]
      rw [ih, osum2_assoc]

/-- A survivor term with a zero count contributes exactly 0: the mixture
raised to the power 0 is 1 and its logarithm is 0. -/
theorem likelihood_survivors_zero (nf I pI pU : ℝ) :
    likelihood_survivors nf I pI pU 0 = some 0 := by
  unfold likelihood_survivors nplog
  rw [pow_zero]
  norm_num [Real.log_one]

/-- Dropping the zero-count survivor term of a group does not change the
possibly-NaN sum of that group's likelihood terms. -/
theorem groupTerms_osum (probdI probdU : ℕ → ℝ) (psI psU : ℝ) (o : DoseGroupObs) :
    osum (groupTerms probdI probdU psI psU o) =
      osum (groupTermsAll probdI probdU psI psU o) := by
  unfold groupTerms groupTermsAll
  by_cases h : 0 < o.surv
  · rw [if_pos h]
  · rw [if_neg h, Nat.eq_zero_of_not_pos h, likelihood_survivors_zero]
    simp [osum, osum2]

/-- C10: the total likelihood built with a survivor term only at strictly
positive survivor counts equals the total with every survivor term
included, because a zero-count survivor likelihood is the mixture to the
power 0, whose logarithm is 0. -/
theorem totalLik_zero_survivor (pd1 pd2 pdU : ℕ → ℝ) (ps1 ps2 psU : ℝ)
    (obs : List (DoseGroupObs × DoseGroupObs)) :
    totalLik pd1 pd2 pdU ps1 ps2 psU obs =
      totalLikAll pd1 pd2 pdU ps1 ps2 psU obs := by
  unfold totalLik totalLikAll
  induction obs with
  | nil => rfl
  | cons o rest ih =>
      simp only [List.map_cons, List.flatten_cons, osum_append]
      rw [groupTerms_osum, groupTerms_osum, ih]
